import Mathlib

/-!
# Verification of the `deeplib` reverse-mode autodiff engine

A shallow embedding of `src/deeplib/tensor.py`: a minimal reverse-mode
automatic-differentiation engine.  Dense numeric arrays (NumPy `ndarray`s)
are modelled as a shape together with a total function from multi-indices
to integers (an exact, computable stand-in for the float buffers; no claim
depends on non-integer values); NumPy broadcasting, axis reductions, matrix multiplication
and elementwise arithmetic are modelled after NumPy's documented semantics.
The tensor graph is modelled as a store (list) of nodes indexed by creation
order; the Python closures stored in `_backward` are replaced by an
operation tag on each node (the closures only capture the operand/output
references and the operation's constants), and the process-global
`NoGrad._enabled` flag is threaded explicitly as a `Bool` argument.
-/

namespace DeepLib

/-! ## Dense arrays -/

/-- A dense n-dimensional array: a shape and a total map from multi-indices
to values.  Values are integers (exact stand-ins for the float buffers). -/
structure NDArray where
  shape : List Nat
  val : List Nat → Int

/-- Number of dimensions (`ndarray.ndim`). -/
def NDArray.ndim (a : NDArray) : Nat := a.shape.length

/-- All valid multi-indices of a shape, in row-major order. -/
def indicesList : List Nat → List (List Nat)
  | [] => [[]]
  | d :: rest => (List.range d).flatMap (fun i => (indicesList rest).map (i :: ·))

/-- Boolean extensional equality of arrays (same shape, same entries). -/
def NDArray.extEqb (a b : NDArray) : Bool :=
  a.shape == b.shape && (indicesList a.shape).all (fun idx => a.val idx == b.val idx)

/-- Row-major flattening of a multi-index. -/
def flatIndex : List Nat → List Nat → Nat
  | _ :: ds, i :: is => i * ds.prod + flatIndex ds is
  | _, _ => 0

/-- Build a concrete array from a shape and the row-major list of entries. -/
def ofList (shape : List Nat) (entries : List Int) : NDArray :=
  ⟨shape, fun idx => entries.getD (flatIndex shape idx) 0⟩

/-- `np.zeros_like`. -/
def zerosLike (a : NDArray) : NDArray := ⟨a.shape, fun _ => 0⟩

/-- `np.ones_like`. -/
def onesLike (a : NDArray) : NDArray := ⟨a.shape, fun _ => 1⟩

/-- NumPy pairwise dimension combination: equal dims, or a dim of size 1
stretches to the other. -/
def broadcastDim (x y : Nat) : Option Nat :=
  if x = y then some x else if x = 1 then some y else if y = 1 then some x else none

/-- Broadcasting of two reversed shapes (aligned at the head = trailing dims). -/
def bcastRev : List Nat → List Nat → Option (List Nat)
  | [], ys => some ys
  | xs, [] => some xs
  | x :: xs, y :: ys =>
    match broadcastDim x y, bcastRev xs ys with
    | some d, some r => some (d :: r)
    | _, _ => none

/-- NumPy broadcast of two shapes (trailing-dimension alignment). -/
def broadcastShape (sa sb : List Nat) : Option (List Nat) :=
  (bcastRev sa.reverse sb.reverse).map List.reverse

/-- Read an array at a multi-index of a (possibly larger) broadcast shape:
leading extra axes are dropped, size-1 axes are pinned to index 0. -/
def NDArray.read (a : NDArray) (idx : List Nat) : Int :=
  a.val (List.zipWith (fun d i => if d = 1 then 0 else i) a.shape
    (idx.drop (idx.length - a.shape.length)))

/-- Elementwise binary operation with NumPy broadcasting; `none` models the
`ValueError: operands could not be broadcast together`. -/
def binOp (f : Int → Int → Int) (a b : NDArray) : Option NDArray :=
  (broadcastShape a.shape b.shape).map
    (fun s => ⟨s, fun idx => f (a.read idx) (b.read idx)⟩)

/-- Elementwise `+` with broadcasting. -/
def addArr (a b : NDArray) : Option NDArray := binOp (· + ·) a b

/-- Elementwise `*` with broadcasting. -/
def mulArr (a b : NDArray) : Option NDArray := binOp (· * ·) a b

/-- Elementwise `==` with broadcasting, as a 0/1 mask (`a == b` in NumPy). -/
def eqMask (a b : NDArray) : Option NDArray :=
  binOp (fun x y => if x = y then 1 else 0) a b

/-- `x ** c` on the exact integer value model: exact for nonnegative integer
exponents; negative (reciprocal) and fractional (float) exponents leave ℤ
and are mapped to 0 — no verified claim depends on those values. -/
def intPow (x c : Int) : Int := if 0 ≤ c then x ^ c.toNat else 0

/-- Elementwise power by a Python scalar (`self.data ** other`). -/
def powData (a : NDArray) (c : Int) : NDArray :=
  ⟨a.shape, fun idx => intPow (a.val idx) c⟩

/-- Maximum of a list of values (NumPy `max`; shapes with a 0 dim unused). -/
def listMax : List Int → Int
  | [] => 0
  | x :: xs => xs.foldl max x

/-- Sum along one axis (`ndarray.sum(axis=i, keepdims=·)`). -/
def sumAxis (a : NDArray) (i : Nat) (keepdims : Bool) : NDArray :=
  { shape := if keepdims then a.shape.set i 1 else a.shape.eraseIdx i
    val := fun idx =>
      ((List.range (a.shape.getD i 0)).map (fun j =>
        a.val (if keepdims then idx.set i j else idx.take i ++ j :: idx.drop i))).sum }

/-- Max along one axis (`ndarray.max(axis=i, keepdims=·)`). -/
def maxAxis (a : NDArray) (i : Nat) (keepdims : Bool) : NDArray :=
  { shape := if keepdims then a.shape.set i 1 else a.shape.eraseIdx i
    val := fun idx =>
      listMax ((List.range (a.shape.getD i 0)).map (fun j =>
        a.val (if keepdims then idx.set i j else idx.take i ++ j :: idx.drop i))) }

/-- `np.sum(a, axis=dim, keepdims=keepdims)` with `dim` possibly `None`. -/
def npSum (a : NDArray) (dim : Option Nat) (keepdims : Bool) : NDArray :=
  match dim with
  | none => ⟨if keepdims then List.replicate a.ndim 1 else [],
             fun _ => ((indicesList a.shape).map a.val).sum⟩
  | some i => sumAxis a i keepdims

/-- `np.max(a, axis=dim, keepdims=keepdims)` with `dim` possibly `None`. -/
def npMax (a : NDArray) (dim : Option Nat) (keepdims : Bool) : NDArray :=
  match dim with
  | none => ⟨if keepdims then List.replicate a.ndim 1 else [],
             fun _ => listMax ((indicesList a.shape).map a.val)⟩
  | some i => maxAxis a i keepdims

/-- `ndarray.T`: reverse all axes. -/
def transposeArr (a : NDArray) : NDArray :=
  ⟨a.shape.reverse, fun idx => a.val idx.reverse⟩

/-- 2-D matrix multiplication (`a @ b`); `none` models the NumPy error on
incompatible inner dimensions (only the 2-D case is exercised here). -/
def matmulData (a b : NDArray) : Option NDArray :=
  match a.shape, b.shape with
  | [m, k], [k2, n] =>
    if k = k2 then
      some ⟨[m, n], fun idx =>
        ((List.range k).map (fun t =>
          a.val [idx.getD 0 0, t] * b.val [t, idx.getD 1 0])).sum⟩
    else none
  | _, _ => none

/-- `np.expand_dims(a, axis=i)`. -/
def expandDims (a : NDArray) (i : Nat) : NDArray :=
  ⟨a.shape.take i ++ 1 :: a.shape.drop i, fun idx => a.val (idx.eraseIdx i)⟩

/-- Compatibility test for `np.broadcast_to` (each trailing-aligned input dim
must equal the target dim or be 1). -/
def btOk (sa s : List Nat) : Bool :=
  sa.length ≤ s.length &&
    (List.zipWith (fun d t => d == t || d == 1) sa (s.drop (s.length - sa.length))).all id

/-- `np.broadcast_to(a, s)`. -/
def broadcastTo (a : NDArray) (s : List Nat) : Option NDArray :=
  if btOk a.shape s then some ⟨s, fun idx => a.read idx⟩ else none

/-! ## The process-wide no-grad switch and its scope guard (`NoGrad`) -/

/-- One `NoGrad` context-manager instance: `__enter__` stores the previous
value of the class attribute `NoGrad._enabled` in `self.prev`. -/
structure NoGradGuard where
  prev : Bool

/-- `NoGrad.__enter__`: saves the current global `_enabled` into the guard and
forces the global to `true` (no-grad active). -/
def NoGradEnter (enabled : Bool) : NoGradGuard × Bool := (⟨enabled⟩, true)

/-- `NoGrad.__exit__`: restores the guard's saved value, whatever the global
currently is. -/
def NoGradExit (g : NoGradGuard) (_enabled : Bool) : Bool := g.prev

/-! ## Tensor nodes and the graph store

Nodes live in a store (a list indexed by creation order).  Python's
`_backward` closures only capture the operand/output references and the
operation's constants, so they are modelled by an operation tag `Op` on the
node, dispatched by `localBackward`. -/

/-- The operation that produced a node (operand node ids plus constants). -/
inductive Op where
  | leaf
  | addN (a b : Nat)
  | mulN (a b : Nat)
  | matmulN (a b : Nat)
  | powN (a : Nat) (c : Int)
  | sumN (a : Nat) (dim : Option Nat) (keepdims : Bool)
  | maxN (a : Nat) (dim : Option Nat) (keepdims : Bool)

/-- A `Tensor` node: `data`, `requires_grad`, optional `grad` buffer, the
`_children` operand references, and the tag standing for `_backward`. -/
structure TNode where
  data : NDArray
  requires_grad : Bool
  grad : Option NDArray
  children : List Nat
  op : Op

def defaultNode : TNode := ⟨⟨[], fun _ => 0⟩, false, none, [], .leaf⟩

/-- The graph store: node id = position (creation order). -/
abbrev Store := List TNode

def getN (s : Store) (i : Nat) : TNode := s.getD i defaultNode

def setGrad (s : Store) (i : Nat) (g : Option NDArray) : Store :=
  s.set i { getN s i with grad := g }

/-- `Tensor.__init__` (lines 22–32): `requires_grad` is masked by the global
no-grad switch, and `grad` is a zero buffer iff the node requires grad. -/
def mkTensor (data : NDArray) (children : List Nat)
    (requires_grad ngEnabled : Bool) (op : Op) : TNode :=
  let rg := requires_grad && !ngEnabled
  { data := data
    requires_grad := rg
    grad := if rg then some (zerosLike data) else none
    children := children
    op := op }

/-! ## Forward operators (graph construction) -/

/-- `Tensor.__mul__` (lines 121–151): broadcast-multiply the buffers, build a
new node whose children are the operands and whose `requires_grad` is the OR
of theirs (masked inside the constructor by the no-grad switch). -/
def mulOp (s : Store) (a b : Nat) (ng : Bool) : Except String (Store × Nat) :=
  match mulArr (getN s a).data (getN s b).data with
  | none => .error "operands could not be broadcast together"
  | some d =>
    .ok (s ++ [mkTensor d [a, b]
        ((getN s a).requires_grad || (getN s b).requires_grad) ng (.mulN a b)],
      s.length)

/-- Modelled from the spec: `deeplib.add` (called by `Tensor.__add__` and
`__iadd__`) is not under `src/`; per the spec's operator contract and add
row, it broadcast-adds the buffers and returns a new node wired to both
operands, `requires_grad` the OR of the operands' masked by the no-grad
switch, without mutating any operand. -/
def addOp (s : Store) (a b : Nat) (ng : Bool) : Except String (Store × Nat) :=
  match addArr (getN s a).data (getN s b).data with
  | none => .error "operands could not be broadcast together"
  | some d =>
    .ok (s ++ [mkTensor d [a, b]
        ((getN s a).requires_grad || (getN s b).requires_grad) ng (.addN a b)],
      s.length)

/-- `Tensor.__iadd__` (lines 109–110): `a += b` just builds `a + b` and
rebinds the name — no in-place mutation. -/
def iaddOp (s : Store) (a b : Nat) (ng : Bool) : Except String (Store × Nat) :=
  addOp s a b ng

/-- `Tensor.__matmul__` (lines 159–172): the NumPy kernel raises on an
inner-dimension mismatch before any node is constructed. -/
def matmulOp (s : Store) (a b : Nat) (ng : Bool) : Except String (Store × Nat) :=
  match matmulData (getN s a).data (getN s b).data with
  | none => .error "matmul: inner dimensions mismatch"
  | some d =>
    .ok (s ++ [mkTensor d [a, b]
        ((getN s a).requires_grad || (getN s b).requires_grad) ng (.matmulN a b)],
      s.length)

/-- The Python argument of `Tensor.__pow__`: a scalar (`int`/`float`) or some
other object such as a `Tensor`. -/
inductive PowExp where
  | scalar (c : Int)
  | tensor (i : Nat)

/-- `Tensor.__pow__` (lines 174–186): `assert isinstance(other, (int, float))`
fails on a non-scalar exponent before any node is constructed. -/
def powOp (s : Store) (a : Nat) (e : PowExp) (ng : Bool) :
    Except String (Store × Nat) :=
  match e with
  | .tensor _ => .error "assert failed: pow exponent must be an int or float"
  | .scalar c =>
    .ok (s ++ [mkTensor (powData (getN s a).data c) [a]
        (getN s a).requires_grad ng (.powN a c)],
      s.length)

/-- `Tensor.sum` (lines 257–277), forward part. -/
def sumOp (s : Store) (a : Nat) (dim : Option Nat) (keepdims : Bool)
    (ng : Bool) : Except String (Store × Nat) :=
  .ok (s ++ [mkTensor (npSum (getN s a).data dim keepdims) [a]
      (getN s a).requires_grad ng (.sumN a dim keepdims)],
    s.length)

/-- `Tensor.max` (lines 219–231), forward part. -/
def maxOp (s : Store) (a : Nat) (dim : Option Nat) (keepdims : Bool)
    (ng : Bool) : Except String (Store × Nat) :=
  .ok (s ++ [mkTensor (npMax (getN s a).data dim keepdims) [a]
      (getN s a).requires_grad ng (.maxN a dim keepdims)],
    s.length)

/-! ## Backward closures -/

/-- Lift a NumPy result, raising on a broadcast failure. -/
def arrE : Option NDArray → Except String NDArray
  | some x => .ok x
  | none => .error "operands could not be broadcast together"

/-- Read a node's `grad` buffer; `None` would crash the NumPy arithmetic. -/
def getGradE (t : TNode) : Except String NDArray :=
  match t.grad with
  | some g => .ok g
  | none => .error "unsupported operand type: NoneType"

/-- The `while grad.ndim > self.grad.ndim: grad = grad.sum(axis=0)` loop of
`__mul__._backward` (lines 134–135): sum away leading extra axes. -/
def sumLeadWhile (g : NDArray) (n : Nat) : NDArray :=
  if h : n < g.shape.length then sumLeadWhile (sumAxis g 0 false) n else g
termination_by g.shape.length
decreasing_by
  simp [sumAxis, List.length_eraseIdx]
  omega

/-- The `for i, dim in enumerate(self.grad.shape): if dim == 1: grad =
grad.sum(axis=i, keepdims=True)` loop (lines 136–138), as a recursion with
the running axis counter. -/
def keepdimsLoop : List Nat → Nat → NDArray → NDArray
  | [], _, g => g
  | d :: rest, i, g => keepdimsLoop rest (i + 1) (if d = 1 then sumAxis g i true else g)

/-- The full broadcast-undoing reduction of an incoming gradient to an
operand's grad shape (lines 134–138). -/
def bcastReduce (target : List Nat) (g : NDArray) : NDArray :=
  keepdimsLoop target 0 (sumLeadWhile g target.length)

/-- One operand's half of `__mul__._backward` (lines 132–139 resp. 141–148):
`grad_self = other.data * out.grad`, reduce it to `self.grad`'s shape, then
`self.grad = self.grad + grad_self`. -/
def mulBackwardHalf (s : Store) (selfId otherId outId : Nat) :
    Except String Store :=
  if (getN s selfId).requires_grad then do
    let og ← getGradE (getN s outId)
    let sg ← getGradE (getN s selfId)
    let g0 ← arrE (mulArr (getN s otherId).data og)
    let gr := bcastReduce sg.shape g0
    let g ← arrE (addArr sg gr)
    pure (setGrad s selfId (some g))
  else pure s

/-- Modelled from the spec: one operand's half of the backward rule of the
missing `deeplib.add` — `dA += dOut` shape-reduced to the operand (the
spec's shape-mismatch reduction rule, shared with multiply). -/
def addBackwardHalf (s : Store) (selfId outId : Nat) : Except String Store :=
  if (getN s selfId).requires_grad then do
    let og ← getGradE (getN s outId)
    let sg ← getGradE (getN s selfId)
    let gr := bcastReduce sg.shape og
    let g ← arrE (addArr sg gr)
    pure (setGrad s selfId (some g))
  else pure s

/-- `__matmul__._backward` (lines 165–169): `self.grad += out.grad @
other.data.T; other.grad += self.data.T @ out.grad`. -/
def matmulBackward (s : Store) (a b outId : Nat) : Except String Store := do
  let s1 ←
    if (getN s a).requires_grad then do
      let og ← getGradE (getN s outId)
      let sg ← getGradE (getN s a)
      let m ← arrE (matmulData og (transposeArr (getN s b).data))
      let g ← arrE (addArr sg m)
      pure (setGrad s a (some g))
    else pure s
  if (getN s1 b).requires_grad then do
    let og ← getGradE (getN s1 outId)
    let sg ← getGradE (getN s1 b)
    let m ← arrE (matmulData (transposeArr (getN s1 a).data) og)
    let g ← arrE (addArr sg m)
    pure (setGrad s1 b (some g))
  else pure s1

/-- `__pow__._backward` (lines 181–183):
`self.grad += out.grad * other * self.data ** (other - 1)`. -/
def powBackward (s : Store) (a : Nat) (c : Int) (outId : Nat) :
    Except String Store :=
  if (getN s a).requires_grad then do
    let og ← getGradE (getN s outId)
    let sg ← getGradE (getN s a)
    let t1 ← arrE (mulArr og ⟨[], fun _ => c⟩)
    let t2 ← arrE (mulArr t1 (powData (getN s a).data (c - 1)))
    let g ← arrE (addArr sg t2)
    pure (setGrad s a (some g))
  else pure s

/-- The gradient buffer built by `Tensor.sum._backward` (lines 264–273):
scalar-case broadcast via `ones_like`, else `expand_dims` (when `keepdims`
is false) followed by `broadcast_to` the operand's shape. -/
def sumGradContrib (selfData : NDArray) (dim : Option Nat) (keepdims : Bool)
    (og : NDArray) : Option NDArray :=
  match dim with
  | none => mulArr (onesLike selfData) og
  | some d => broadcastTo (if keepdims then og else expandDims og d) selfData.shape

/-- `Tensor.sum._backward` (lines 264–274): `self.grad += grad`. -/
def sumBackward (s : Store) (a : Nat) (dim : Option Nat) (keepdims : Bool)
    (outId : Nat) : Except String Store :=
  if (getN s a).requires_grad then do
    let og ← getGradE (getN s outId)
    let sg ← getGradE (getN s a)
    let gr ← arrE (sumGradContrib (getN s a).data dim keepdims og)
    let g ← arrE (addArr sg gr)
    pure (setGrad s a (some g))
  else pure s

/-- `Tensor.max._backward` (lines 226–228):
`self.grad += out.grad * (self.data == out.data)`. -/
def maxBackward (s : Store) (a : Nat) (outId : Nat) : Except String Store :=
  if (getN s a).requires_grad then do
    let og ← getGradE (getN s outId)
    let sg ← getGradE (getN s a)
    let mask ← arrE (eqMask (getN s a).data (getN s outId).data)
    let t ← arrE (mulArr og mask)
    let g ← arrE (addArr sg t)
    pure (setGrad s a (some g))
  else pure s

/-- Dispatch of `node._backward()` on the node's producing operation. -/
def localBackward (s : Store) (i : Nat) : Except String Store :=
  match (getN s i).op with
  | .leaf => pure s
  | .addN a b => do
    let s1 ← addBackwardHalf s a i
    addBackwardHalf s1 b i
  | .mulN a b => do
    let s1 ← mulBackwardHalf s a b i
    mulBackwardHalf s1 b a i
  | .matmulN a b => matmulBackward s a b i
  | .powN a c => powBackward s a c i
  | .sumN a dim keepdims => sumBackward s a dim keepdims i
  | .maxN a _ _ => maxBackward s a i

/-! ## The backward engine: `build_topo` and the reverse sweep -/

/-- The parent links of the graph: node id ↦ its `_children` operand ids. -/
def childrenOf (g : List (List Nat)) (v : Nat) : List Nat := g.getD v []

/-- Well-formedness of a graph: construction is strictly forward, every
child id is smaller than the node's own id. -/
def wfB (g : List (List Nat)) : Bool :=
  (List.range g.length).all (fun v => (g.getD v []).all (· < v))

/-- `Tensor.backward.build_topo` (lines 48–53): depth-first post-order with
a visited set; the `for child in v._children` loop is a fold over the child
list.  The fuel argument is a termination device only: on a well-formed
graph every child id is below the current node's id, so a call with fuel
`v + 1` at node `v` never exhausts it. -/
def buildTopoF (g : List (List Nat)) : Nat → Nat → List Nat × List Nat →
    List Nat × List Nat
  | 0, _, st => st
  | fuel + 1, v, st =>
    if v ∈ st.1 then st
    else
      let st2 := (childrenOf g v).foldl
        (fun st' c => buildTopoF g fuel c st') (v :: st.1, st.2)
      (st2.1, st2.2 ++ [v])

/-- The `topo` list produced by `build_topo(self)` (lines 45–55). -/
def buildTopo (g : List (List Nat)) (root : Nat) : List Nat :=
  (buildTopoF g (root + 1) root ([], [])).2

/-- The order in which `backward` fires the `_backward` closures:
`for node in reversed(topo)` (line 57). -/
def backwardOrder (g : List (List Nat)) (root : Nat) : List Nat :=
  (buildTopo g root).reverse

/-- Fire `node._backward()` along a list of node ids. -/
def runNodes (s : Store) : List Nat → Except String Store
  | [] => pure s
  | v :: rest =>
    match localBackward s v with
    | .error e => .error e
    | .ok s' => runNodes s' rest

/-- The parent-link graph of a store. -/
def storeGraph (s : Store) : List (List Nat) := s.map (fun n => n.children)

/-- `Tensor.backward` (lines 38–58): refuse non-grad roots, seed the root's
`grad` with ones, then fire `_backward` over the reversed post-order. -/
def backward (s : Store) (t : Nat) : Except String Store :=
  if (getN s t).requires_grad = false then
    .error "Cannot call backward() on a tensor that does not require gradients."
  else
    runNodes (setGrad s t (some (onesLike (getN s t).data)))
      (backwardOrder (storeGraph s) t)

/-! ## Reachability and traversal invariants -/

/-- Reachability along parent links (`_children`), used to state which nodes
the backward traversal visits. -/
inductive Reach (g : List (List Nat)) : Nat → Nat → Prop where
  | refl (v : Nat) : Reach g v v
  | step {u v c : Nat} : Reach g u v → c ∈ childrenOf g v → Reach g u c

/-- Invariant of the `build_topo` state: the emitted order is duplicate-free,
emitted nodes are visited, their children are visited, and every child of an
emitted node is emitted strictly earlier. -/
def topoInv (g : List (List Nat)) (vis topo : List Nat) : Prop :=
  topo.Nodup ∧
  (∀ x ∈ topo, x ∈ vis) ∧
  (∀ x ∈ topo, ∀ c ∈ childrenOf g x, c ∈ vis) ∧
  (∀ i (h : i < topo.length), ∀ c ∈ childrenOf g (topo.get ⟨i, h⟩), c ∈ topo.take i)

/-- Every visited-but-not-yet-emitted node (the current DFS stack) lies
strictly above `v`. -/
def pendingGT (v : Nat) (vis topo : List Nat) : Prop :=
  ∀ p ∈ vis, p ∉ topo → v < p

/-- Full postcondition of one `build_topo(v)` call. -/
def topoPost (g : List (List Nat)) (v : Nat) (vis topo : List Nat)
    (st : List Nat × List Nat) : Prop :=
  ∃ Δ, st.2 = topo ++ Δ ∧
    (∀ x, x ∈ st.1 ↔ x ∈ vis ∨ x ∈ Δ) ∧
    (∀ x ∈ Δ, x ∉ vis) ∧
    (∀ x ∈ Δ, Reach g v x) ∧
    v ∈ st.1 ∧
    topoInv g st.1 st.2

/-- Full postcondition of the `for child in v._children` loop. -/
def topoPostList (g : List (List Nat)) (cs vis topo : List Nat)
    (st : List Nat × List Nat) : Prop :=
  ∃ Δ, st.2 = topo ++ Δ ∧
    (∀ x, x ∈ st.1 ↔ x ∈ vis ∨ x ∈ Δ) ∧
    (∀ x ∈ Δ, x ∉ vis) ∧
    (∀ x ∈ Δ, ∃ c ∈ cs, Reach g c x) ∧
    (∀ c ∈ cs, c ∈ st.1) ∧
    topoInv g st.1 st.2

/-! ## Concrete instances used by witnesses and counterexamples -/

/-- The diamond graph: node 3 consumes 1 and 2, which both consume 0. -/
def diamondG : List (List Nat) := [[], [0], [0], [1, 2]]

/-- A concrete `(2,3)` buffer. -/
def aArr23 : NDArray := ofList [2, 3] [1, 2, 3, 4, 5, 6]

/-- A leaf tensor over `aArr23` with `requires_grad=True`. -/
def leafT : TNode := mkTensor aArr23 [] true false .leaf

/-- A leaf tensor over `aArr23` with `requires_grad=False`. -/
def leafF : TNode := mkTensor aArr23 [] false false .leaf

/-- The store built by `t.max(dim=1)` (keepdims omitted, hence `False`) on a
`(2,3)` tensor `t` that requires grad. -/
def c5maxStore : Store :=
  [leafT, mkTensor (npMax aArr23 (some 1) false) [0] true false (.maxN 0 (some 1) false)]

/-- The store built by `t.max(dim=1, keepdims=True)` on the same tensor. -/
def c5maxKStore : Store :=
  [leafT, mkTensor (npMax aArr23 (some 1) true) [0] true false (.maxN 0 (some 1) true)]

/-- The store built by `t.sum(dim=0)` on a `(2,3)` tensor that requires
grad. -/
def c6store : Store :=
  [leafT, mkTensor (npSum aArr23 (some 0) false) [0] true false (.sumN 0 (some 0) false)]

/-- The gradient buffer of node `i` after a backward run (if it succeeded). -/
def gradAt (r : Except String Store) (i : Nat) : Option NDArray :=
  match r with
  | .ok s => (getN s i).grad
  | .error _ => none

/-- A `(3,1)` leaf and a `(3,4)` leaf, with the grad of a product node seeded:
exercises the broadcast-undoing reduction of `__mul__._backward`. -/
def aArr31 : NDArray := ofList [3, 1] [1, 2, 3]

def bArr34 : NDArray := ofList [3, 4] [1, 2, 3, 4, 5, 6, 7, 8, 9, 10, 11, 12]

def mulW : Store :=
  [mkTensor aArr31 [] true false .leaf,
   mkTensor bArr34 [] true false .leaf,
   { data := ofList [3, 4] [], requires_grad := true,
     grad := some (onesLike bArr34), children := [0, 1], op := .mulN 0 1 }]

/-! ## Store helper lemmas -/

lemma getN_append_left (s : Store) (n : TNode) (l : Nat) (h : l < s.length) :
    getN (s ++ [n]) l = getN s l := by
  simp [getN, List.getD_eq_getElem?_getD, List.getElem?_append_left h]

lemma getN_append_self (s : Store) (n : TNode) : getN (s ++ [n]) s.length = n := by
  simp [getN, List.getD_eq_getElem?_getD,
    List.getElem?_append_right (le_refl s.length)]

lemma getN_set_self (s : Store) (t : Nat) (g : Option NDArray) (h : t < s.length) :
    getN (setGrad s t g) t = { getN s t with grad := g } := by
  simp [setGrad, getN, List.getD_eq_getElem?_getD, List.getElem?_set_self h]

/-- Common consequence of a successful append-style operator call. -/
lemma append_op_ok (s : Store) (n : TNode) (s' : Store) (i : Nat)
    (h : s ++ [n] = s' ∧ s.length = i) :
    i = s.length ∧ s'.length = s.length + 1 ∧
      ∀ l, l < s.length → getN s' l = getN s l := by
  obtain ⟨rfl, rfl⟩ := h
  exact ⟨rfl, by simp, fun l hl => getN_append_left s n l hl⟩

/-! ## Claim theorems -/

/-- C2: calling `backward()` on a tensor with `requires_grad = False` raises
`RuntimeError` with the source's message; in this pure embedding the error
result carries no store, so no traversal happens and no node's `grad` is
touched. -/
theorem claim_C2_backward_error (s : Store) (t : Nat)
    (h : (getN s t).requires_grad = false) :
    backward s t =
      Except.error "Cannot call backward() on a tensor that does not require gradients." := by
  simp [backward, h]

theorem claim_C2_witness :
    (getN [leafF] 0).requires_grad = false ∧
      backward [leafF] 0 =
        Except.error "Cannot call backward() on a tensor that does not require gradients." :=
  ⟨rfl, claim_C2_backward_error [leafF] 0 rfl⟩

/-- C7: the `NoGrad` guard saves the old value of the global switch in the
instance (`self.prev`), forces the switch on, and `__exit__` restores exactly
the saved value; entering a second (nested) scope and exiting it restores
`true`, i.e. tracking stays disabled. -/
theorem claim_C7_nograd_guard (s0 x y : Bool) :
    (NoGradEnter s0).1.prev = s0 ∧
      (NoGradEnter s0).2 = true ∧
      NoGradExit (NoGradEnter s0).1 x = s0 ∧
      NoGradExit (NoGradEnter (NoGradEnter s0).2).1 y = true := by
  simp [NoGradEnter, NoGradExit]

theorem claim_C7_witness :
    (NoGradEnter false).1.prev = false ∧
      (NoGradEnter false).2 = true ∧
      NoGradExit (NoGradEnter false).1 true = false ∧
      NoGradExit (NoGradEnter (NoGradEnter false).2).1 false = true :=
  claim_C7_nograd_guard false true false

/-- C8: for a root with `requires_grad = True` — of any shape, scalar or not —
`backward` seeds the root's `grad` with a ones array of the root's shape and
only then fires the `_backward` closures along the reversed post-order. -/
theorem claim_C8_seed_ones (s : Store) (t : Nat)
    (h : (getN s t).requires_grad = true) (ht : t < s.length) :
    backward s t =
        runNodes (setGrad s t (some (onesLike (getN s t).data)))
          (backwardOrder (storeGraph s) t) ∧
      (getN (setGrad s t (some (onesLike (getN s t).data))) t).grad =
        some (onesLike (getN s t).data) ∧
      (onesLike (getN s t).data).shape = (getN s t).data.shape := by
  refine ⟨by simp [backward, h], ?_, rfl⟩
  rw [getN_set_self s t _ ht]

theorem claim_C8_witness :
    ((getN [leafT] 0).requires_grad = true ∧ 0 < ([leafT] : Store).length) ∧
      ((getN (setGrad [leafT] 0 (some (onesLike (getN [leafT] 0).data))) 0).grad =
        some (onesLike (getN [leafT] 0).data)) :=
  ⟨⟨rfl, by decide⟩, (claim_C8_seed_ones [leafT] 0 rfl (by decide)).2.1⟩

/-- C3: at construction a node's `grad` is `None` iff `requires_grad` is
false, and otherwise a zero buffer of `data`'s shape; `requires_grad` is the
requested flag masked by the no-grad switch, and on a derived `__mul__` node
it is the OR of the operands' flags, masked by the switch. -/
theorem claim_C3_grad_invariants (data : NDArray) (children : List Nat)
    (rg ng : Bool) (op : Op) (s : Store) (a b : Nat) (ng2 : Bool)
    (s2 : Store) (i : Nat) (h : mulOp s a b ng2 = Except.ok (s2, i)) :
    ((mkTensor data children rg ng op).grad = none ↔
        (mkTensor data children rg ng op).requires_grad = false) ∧
      (mkTensor data children rg ng op).requires_grad = (rg && !ng) ∧
      ((mkTensor data children rg ng op).requires_grad = true →
        (mkTensor data children rg ng op).grad = some (zerosLike data) ∧
          (zerosLike data).shape = data.shape) ∧
      (getN s2 i).requires_grad =
        (((getN s a).requires_grad || (getN s b).requires_grad) && !ng2) := by
  refine ⟨?_, rfl, ?_, ?_⟩
  · cases hrg : rg && !ng <;> simp [mkTensor, hrg]
  · intro hg
    cases hrg : rg && !ng
    · simp [mkTensor, hrg] at hg
    · exact ⟨by simp [mkTensor, hrg], rfl⟩
  · revert h
    unfold mulOp
    cases hm : mulArr (getN s a).data (getN s b).data with
    | none => intro h; exact absurd h (by simp)
    | some d =>
      intro h
      simp at h
      obtain ⟨rfl, rfl⟩ := h
      rw [getN_append_self]
      rfl

theorem claim_C3_witness :
    ∃ s2 i, mulOp [leafT, leafF] 0 1 false = Except.ok (s2, i) ∧
      ((mkTensor aArr23 [] true false Op.leaf).grad = none ↔
        (mkTensor aArr23 [] true false Op.leaf).requires_grad = false) ∧
      (getN s2 i).requires_grad =
        (((getN [leafT, leafF] 0).requires_grad ||
          (getN [leafT, leafF] 1).requires_grad) && !false) :=
  ⟨_, _, rfl,
    (claim_C3_grad_invariants aArr23 [] true false Op.leaf
      [leafT, leafF] 0 1 false _ _ rfl).1,
    (claim_C3_grad_invariants aArr23 [] true false Op.leaf
      [leafT, leafF] 0 1 false _ _ rfl).2.2.2⟩

/-- C9: forward operator calls never touch existing nodes — a successful call
appends exactly one new node and leaves every prior node identically equal —
and the failing calls (`matmul` with mismatched inner dimensions, `pow` with
a non-scalar exponent) error out before any node is created: the error
result carries the store unchanged by construction. -/
theorem claim_C9_no_mutation (s : Store) (a b : Nat) (ng : Bool) (c : Int) :
    (∀ s' i, mulOp s a b ng = Except.ok (s', i) →
        i = s.length ∧ s'.length = s.length + 1 ∧
          ∀ l, l < s.length → getN s' l = getN s l) ∧
      (∀ s' i, matmulOp s a b ng = Except.ok (s', i) →
        i = s.length ∧ s'.length = s.length + 1 ∧
          ∀ l, l < s.length → getN s' l = getN s l) ∧
      (∀ s' i, addOp s a b ng = Except.ok (s', i) →
        i = s.length ∧ s'.length = s.length + 1 ∧
          ∀ l, l < s.length → getN s' l = getN s l) ∧
      (∀ s' i, powOp s a (.scalar c) ng = Except.ok (s', i) →
        i = s.length ∧ s'.length = s.length + 1 ∧
          ∀ l, l < s.length → getN s' l = getN s l) ∧
      (∀ j, powOp s a (.tensor j) ng =
        Except.error "assert failed: pow exponent must be an int or float") ∧
      (∀ m k k2 n, (getN s a).data.shape = [m, k] →
        (getN s b).data.shape = [k2, n] → k ≠ k2 →
        matmulOp s a b ng = Except.error "matmul: inner dimensions mismatch") := by
  refine ⟨?_, ?_, ?_, ?_, fun j => rfl, ?_⟩
  · intro s' i h
    revert h
    unfold mulOp
    cases hm : mulArr (getN s a).data (getN s b).data with
    | none => intro h; exact absurd h (by simp)
    | some d =>
      intro h
      exact append_op_ok s _ s' i (by simpa using h)
  · intro s' i h
    revert h
    unfold matmulOp
    cases hm : matmulData (getN s a).data (getN s b).data with
    | none => intro h; exact absurd h (by simp)
    | some d =>
      intro h
      exact append_op_ok s _ s' i (by simpa using h)
  · intro s' i h
    revert h
    unfold addOp
    cases hm : addArr (getN s a).data (getN s b).data with
    | none => intro h; exact absurd h (by simp)
    | some d =>
      intro h
      exact append_op_ok s _ s' i (by simpa using h)
  · intro s' i h
    exact append_op_ok s _ s' i (by simpa [powOp] using h)
  · intro m k k2 n ha hb hk
    simp [matmulOp, matmulData, ha, hb, hk]

theorem claim_C9_witness :
    matmulOp [leafT, leafT] 0 1 false =
        Except.error "matmul: inner dimensions mismatch" ∧
      powOp [leafT, leafT] 0 (.tensor 1) false =
        Except.error "assert failed: pow exponent must be an int or float" ∧
      ∃ s' i, mulOp [leafT, leafT] 0 1 false = Except.ok (s', i) ∧
        i = 2 ∧ s'.length = 3 ∧ getN s' 0 = getN [leafT, leafT] 0 := by
  refine ⟨?_, ?_, ?_⟩
  · exact (claim_C9_no_mutation [leafT, leafT] 0 1 false 0).2.2.2.2.2
      2 3 2 3 rfl rfl (by decide)
  · exact (claim_C9_no_mutation [leafT, leafT] 0 1 false 0).2.2.2.2.1 1
  · obtain ⟨h1, h2, h3⟩ :=
      (claim_C9_no_mutation [leafT, leafT] 0 1 false 0).1 _ _ rfl
    exact ⟨_, _, rfl, h1, by simpa using h2, h3 0 (by decide)⟩

/-- C10: `a += b` (`__iadd__`) is exactly `a + b`: it builds a fresh node
(wired by `deeplib.add`, modelled from the spec) and rebinds the name; the
node previously bound to `a`, and every other existing node, is untouched. -/
theorem claim_C10_iadd_fresh_node (s : Store) (a b : Nat) (ng : Bool)
    (ha : a < s.length) :
    iaddOp s a b ng = addOp s a b ng ∧
      ∀ s' i, iaddOp s a b ng = Except.ok (s', i) →
        i = s.length ∧ s'.length = s.length + 1 ∧ getN s' a = getN s a ∧
          ∀ l, l < s.length → getN s' l = getN s l := by
  refine ⟨rfl, ?_⟩
  intro s' i h
  revert h
  unfold iaddOp addOp
  cases hm : addArr (getN s a).data (getN s b).data with
  | none => intro h; exact absurd h (by simp)
  | some d =>
    intro h
    obtain ⟨h1, h2, h3⟩ := append_op_ok s _ s' i (by simpa using h)
    exact ⟨h1, h2, h3 a ha, h3⟩

theorem claim_C10_witness :
    0 < ([leafT, leafF] : Store).length ∧
      ∃ s' i, iaddOp [leafT, leafF] 0 1 false = Except.ok (s', i) ∧
        i = 2 ∧ s'.length = 3 ∧ getN s' 0 = getN [leafT, leafF] 0 := by
  refine ⟨by decide, ?_⟩
  obtain ⟨h1, h2, h3, _⟩ :=
    (claim_C10_iadd_fresh_node [leafT, leafF] 0 1 false (by decide)).2 _ _ rfl
  exact ⟨_, _, rfl, h1, by simpa using h2, h3⟩

/-! ## Broadcasting shape lemmas (for the multiply/add backward reduction) -/

lemma getD_reverse (l : List Nat) (i : Nat) (h : i < l.length) :
    l.reverse.getD i 0 = l.getD (l.length - 1 - i) 0 := by
  simp [List.getD_eq_getElem?_getD, List.getElem?_reverse h]

lemma getD_drop (l : List Nat) (k j : Nat) :
    (l.drop k).getD j 0 = l.getD (k + j) 0 := by
  simp [List.getD_eq_getElem?_getD, List.getElem?_drop]

lemma bcastRev_len :
    ∀ {xs ys r : List Nat}, bcastRev xs ys = some r →
      r.length = max xs.length ys.length := by
  intro xs
  induction xs with
  | nil => intro ys r h; simp [bcastRev] at h; simp [← h]
  | cons x xs ih =>
    intro ys r h
    cases ys with
    | nil => simp [bcastRev] at h; simp [← h]
    | cons y ys =>
      revert h
      unfold bcastRev
      cases hd : broadcastDim x y with
      | none => intro h; exact absurd h (by simp)
      | some d =>
        cases hr : bcastRev xs ys with
        | none => intro h; exact absurd h (by simp)
        | some r0 =>
          intro h
          simp at h
          subst h
          simp [ih hr]
          omega

lemma broadcastDim_of_ne_one {x y d : Nat} (h : broadcastDim x y = some d)
    (hx : x ≠ 1) : d = x := by
  unfold broadcastDim at h
  by_cases h1 : x = y
  · rw [if_pos h1] at h; exact (Option.some.inj h).symm
  · rw [if_neg h1, if_neg hx] at h
    by_cases h2 : y = 1
    · rw [if_pos h2] at h; exact (Option.some.inj h).symm
    · rw [if_neg h2] at h; cases h

lemma bcastRev_left :
    ∀ {xs ys r : List Nat}, bcastRev xs ys = some r →
      ∀ i, i < xs.length → xs.getD i 0 ≠ 1 → r.getD i 0 = xs.getD i 0 := by
  intro xs
  induction xs with
  | nil => intro ys r _ i hi; exact absurd hi (by simp)
  | cons x xs ih =>
    intro ys r h i hi hne
    cases ys with
    | nil =>
      simp [bcastRev] at h
      subst h; rfl
    | cons y ys =>
      revert h
      unfold bcastRev
      cases hd : broadcastDim x y with
      | none => intro h; exact absurd h (by simp)
      | some d =>
        cases hr : bcastRev xs ys with
        | none => intro h; exact absurd h (by simp)
        | some r0 =>
          intro h
          simp at h
          subst h
          cases i with
          | zero =>
            simpa [List.getD_cons_zero] using
              broadcastDim_of_ne_one hd (by simpa [List.getD_cons_zero] using hne)
          | succ i =>
            simpa [List.getD_cons_succ] using
              ih hr i (by simpa using hi) (by simpa [List.getD_cons_succ] using hne)

lemma bcastRev_self : ∀ xs : List Nat, bcastRev xs xs = some xs := by
  intro xs
  induction xs with
  | nil => rfl
  | cons x xs ih => simp [bcastRev, broadcastDim, ih]

lemma broadcastDim_absorb_right {x y d : Nat} (h : broadcastDim x y = some d) :
    broadcastDim y d = some d := by
  unfold broadcastDim at h ⊢
  by_cases h1 : x = y
  · subst h1
    rw [if_pos rfl] at h
    obtain rfl := Option.some.inj h
    rw [if_pos rfl]
  · rw [if_neg h1] at h
    by_cases h2 : x = 1
    · rw [if_pos h2] at h
      obtain rfl := Option.some.inj h
      rw [if_pos rfl]
    · rw [if_neg h2] at h
      by_cases h3 : y = 1
      · rw [if_pos h3] at h
        obtain rfl := Option.some.inj h
        subst h3
        rw [if_neg (fun hh => h2 hh.symm), if_pos rfl]
      · rw [if_neg h3] at h; cases h

lemma broadcastDim_absorb_left {x y d : Nat} (h : broadcastDim x y = some d) :
    broadcastDim x d = some d := by
  unfold broadcastDim at h ⊢
  by_cases h1 : x = y
  · subst h1
    rw [if_pos rfl] at h
    obtain rfl := Option.some.inj h
    rw [if_pos rfl]
  · rw [if_neg h1] at h
    by_cases h2 : x = 1
    · rw [if_pos h2] at h
      obtain rfl := Option.some.inj h
      subst h2
      rw [if_neg h1, if_pos rfl]
    · rw [if_neg h2] at h
      by_cases h3 : y = 1
      · rw [if_pos h3] at h
        obtain rfl := Option.some.inj h
        rw [if_pos rfl]
      · rw [if_neg h3] at h; cases h

lemma bcastRev_absorb_right :
    ∀ {xs ys r : List Nat}, bcastRev xs ys = some r → bcastRev ys r = some r := by
  intro xs
  induction xs with
  | nil => intro ys r h; simp [bcastRev] at h; subst h; exact bcastRev_self ys
  | cons x xs ih =>
    intro ys r h
    cases ys with
    | nil => simp [bcastRev] at h; subst h; simp [bcastRev]
    | cons y ys =>
      revert h
      unfold bcastRev
      cases hd : broadcastDim x y with
      | none => intro h; exact absurd h (by simp)
      | some d =>
        cases hr : bcastRev xs ys with
        | none => intro h; exact absurd h (by simp)
        | some r0 =>
          intro h
          simp at h
          subst h
          simp [bcastRev, broadcastDim_absorb_right hd, ih hr]

lemma bcastRev_absorb_left :
    ∀ {xs ys r : List Nat}, bcastRev xs ys = some r → bcastRev xs r = some r := by
  intro xs
  induction xs with
  | nil => intro ys r h; simp [bcastRev] at h; subst h; simp [bcastRev]
  | cons x xs ih =>
    intro ys r h
    cases ys with
    | nil => simp [bcastRev] at h; subst h; exact bcastRev_self _
    | cons y ys =>
      revert h
      unfold bcastRev
      cases hd : broadcastDim x y with
      | none => intro h; exact absurd h (by simp)
      | some d =>
        cases hr : bcastRev xs ys with
        | none => intro h; exact absurd h (by simp)
        | some r0 =>
          intro h
          simp at h
          subst h
          simp [bcastRev, broadcastDim_absorb_left hd, ih hr]

lemma broadcastShape_self (t : List Nat) : broadcastShape t t = some t := by
  simp [broadcastShape, bcastRev_self]

lemma broadcastShape_absorb_right {sa sb s : List Nat}
    (h : broadcastShape sa sb = some s) : broadcastShape sb s = some s := by
  rw [broadcastShape, Option.map_eq_some'] at h ⊢
  obtain ⟨rr, hrr, rfl⟩ := h
  exact ⟨rr, by simpa using bcastRev_absorb_right hrr, rfl⟩

lemma broadcastShape_absorb_left {sa sb s : List Nat}
    (h : broadcastShape sa sb = some s) : broadcastShape sa s = some s := by
  rw [broadcastShape, Option.map_eq_some'] at h ⊢
  obtain ⟨rr, hrr, rfl⟩ := h
  exact ⟨rr, by simpa using bcastRev_absorb_left hrr, rfl⟩

lemma broadcastShape_len {sa sb s : List Nat} (h : broadcastShape sa sb = some s) :
    s.length = max sa.length sb.length := by
  rw [broadcastShape, Option.map_eq_some'] at h
  obtain ⟨rr, hrr, rfl⟩ := h
  simpa using bcastRev_len hrr

/-- The broadcast result, restricted to its trailing `sa.length` dims, agrees
with `sa` wherever `sa` is not 1. -/
lemma suffix_of_bcast {sa sb s : List Nat} (h : broadcastShape sa sb = some s) :
    sa.length ≤ s.length ∧
      ∀ j, j < sa.length → sa.getD j 0 ≠ 1 →
        (s.drop (s.length - sa.length)).getD j 0 = sa.getD j 0 := by
  have hlen : s.length = max sa.length sb.length := broadcastShape_len h
  rw [broadcastShape, Option.map_eq_some'] at h
  obtain ⟨rr, hrr, rfl⟩ := h
  have hrl : rr.length = max sa.length sb.length := by simpa using bcastRev_len hrr
  refine ⟨by omega, ?_⟩
  intro j hj hne
  rw [getD_drop]
  have h1 : rr.reverse.length - sa.length + j < rr.length := by
    simp [hrl]; omega
  rw [getD_reverse rr _ h1]
  have h2 : sa.getD j 0 = sa.reverse.getD (sa.length - 1 - j) 0 := by
    rw [getD_reverse sa (sa.length - 1 - j) (by omega)]
    congr 1
    omega
  have h3 : rr.length - 1 - (rr.reverse.length - sa.length + j) =
      sa.length - 1 - j := by
    simp [hrl]
    omega
  rw [h3, h2]
  exact bcastRev_left hrr _ (by simp; omega) (by rw [← h2]; exact hne)

/-! ## Shape behaviour of the backward reduction loops -/

lemma sumAxis_shape_keep (a : NDArray) (i : Nat) :
    (sumAxis a i true).shape = a.shape.set i 1 := rfl

lemma sumAxis_shape_drop0 (a : NDArray) :
    (sumAxis a 0 false).shape = a.shape.drop 1 := by
  cases h : a.shape with
  | nil => simp [sumAxis, h]
  | cons x xs => simp [sumAxis, h]

lemma sumLeadWhile_shape (g : NDArray) (n : Nat) :
    (sumLeadWhile g n).shape = g.shape.drop (g.shape.length - n) := by
  induction g, n using sumLeadWhile.induct with
  | case1 g n h ih =>
    rw [sumLeadWhile, dif_pos h, ih, sumAxis_shape_drop0, List.drop_drop]
    congr 1
    rw [List.length_drop]
    omega
  | case2 g n h =>
    rw [sumLeadWhile, dif_neg h]
    have : g.shape.length - n = 0 := by omega
    simp [this]

lemma take_set (s : List Nat) (i x : Nat) : (s.set i x).take i = s.take i := by
  induction s generalizing i with
  | nil => simp
  | cons a s ih =>
    cases i with
    | zero => simp
    | succ i => simp [ih]

lemma keepdimsLoop_shape :
    ∀ (target : List Nat) (i : Nat) (g : NDArray),
      g.shape.length = i + target.length →
      (∀ j, j < target.length → target.getD j 0 ≠ 1 →
        g.shape.getD (i + j) 0 = target.getD j 0) →
      (keepdimsLoop target i g).shape = g.shape.take i ++ target := by
  intro target
  induction target with
  | nil =>
    intro i g hl _
    simp only [keepdimsLoop]
    rw [List.take_of_length_le (by simp at hl; omega)]
    simp
  | cons d rest ih =>
    intro i g hl hc
    rw [keepdimsLoop]
    set g1 := if d = 1 then sumAxis g i true else g with hg1
    have hg1shape : g1.shape = if d = 1 then g.shape.set i 1 else g.shape := by
      rw [hg1]; split <;> rfl
    have hl' : g.shape.length = i + rest.length + 1 := by simp at hl; omega
    have hl1 : g1.shape.length = (i + 1) + rest.length := by
      rw [hg1shape]
      split
      · rw [List.length_set]; omega
      · omega
    have hi : i < g.shape.length := by omega
    have hc1 : ∀ j, j < rest.length → rest.getD j 0 ≠ 1 →
        g1.shape.getD ((i + 1) + j) 0 = rest.getD j 0 := by
      intro j hj hne
      have hne0 : i ≠ i + 1 + j := by omega
      have heq : g1.shape.getD (i + 1 + j) 0 = g.shape.getD (i + 1 + j) 0 := by
        rw [hg1shape]
        split
        · simp [List.getD_eq_getElem?_getD, List.getElem?_set_ne hne0]
        · rfl
      rw [heq]
      have h5 := hc (j + 1) (by simpa using hj)
        (by simpa [List.getD_cons_succ] using hne)
      have h6 : i + 1 + j = i + (j + 1) := by omega
      rw [h6]
      simpa [List.getD_cons_succ] using h5
    rw [ih (i + 1) g1 hl1 hc1]
    have htake : g1.shape.take (i + 1) = g.shape.take i ++ [d] := by
      rw [List.take_succ]
      congr 1
      · rw [hg1shape]; split
        · exact take_set _ _ _
        · rfl
      · rw [hg1shape]
        by_cases hd : d = 1
        · simp [hd, List.getElem?_set_self hi]
        · simp [hd]
          have := hc 0 (by simp) (by simpa [List.getD] using hd)
          simp [List.getD_eq_getElem?_getD, List.getElem?_eq_getElem hi] at this
          simp [List.getElem?_eq_getElem hi, this]
    rw [htake]
    simp

/-- Core shape theorem of the broadcast-undoing reduction: it restores
exactly the operand's shape. -/
lemma bcastReduce_shape (target : List Nat) (g : NDArray)
    (hlen : target.length ≤ g.shape.length)
    (hc : ∀ j, j < target.length → target.getD j 0 ≠ 1 →
      (g.shape.drop (g.shape.length - target.length)).getD j 0 = target.getD j 0) :
    (bcastReduce target g).shape = target := by
  rw [bcastReduce]
  have h1 : (sumLeadWhile g target.length).shape =
      g.shape.drop (g.shape.length - target.length) := sumLeadWhile_shape g _
  have h2 : (sumLeadWhile g target.length).shape.length = target.length := by
    rw [h1, List.length_drop]; omega
  rw [keepdimsLoop_shape target 0 _ (by simpa using h2)
    (by intro j hj hne; rw [Nat.zero_add, h1]; exact hc j hj hne)]
  simp

lemma binOp_shape (f : Int → Int → Int) (a b : NDArray) (s : List Nat)
    (h : broadcastShape a.shape b.shape = some s) :
    ∃ r, binOp f a b = some r ∧ r.shape = s := by
  refine ⟨_, by rw [binOp, h]; rfl, rfl⟩

/-- C4: one operand's half of `__mul__._backward` — the claim is symmetric in
the two operands, so instantiating `selfId`/`otherId` both ways covers both
halves.  For broadcastable operand shapes and an incoming gradient of the
broadcast shape, the backward step computes `other.data * out.grad`, reduces
it with the leading-axes/keepdims reduction to exactly the operand's shape,
and adds it into the operand's `grad`, which therefore keeps the operand's
own shape. -/
theorem claim_C4_mul_broadcast_backward (s : Store) (selfId otherId outId : Nat)
    (dOut gradA : NDArray) (sOut : List Nat)
    (hrg : (getN s selfId).requires_grad = true)
    (hog : (getN s outId).grad = some dOut)
    (hsg : (getN s selfId).grad = some gradA)
    (hbc : broadcastShape (getN s selfId).data.shape (getN s otherId).data.shape =
      some sOut)
    (hout : dOut.shape = sOut)
    (hga : gradA.shape = (getN s selfId).data.shape) :
    ∃ g0 r, mulArr (getN s otherId).data dOut = some g0 ∧
      (bcastReduce gradA.shape g0).shape = (getN s selfId).data.shape ∧
      addArr gradA (bcastReduce gradA.shape g0) = some r ∧
      r.shape = (getN s selfId).data.shape ∧
      mulBackwardHalf s selfId otherId outId = Except.ok (setGrad s selfId (some r)) := by
  have habs : broadcastShape (getN s otherId).data.shape dOut.shape = some sOut := by
    rw [hout]; exact broadcastShape_absorb_right hbc
  obtain ⟨g0, hg0, hg0s⟩ := binOp_shape (· * ·) _ dOut sOut habs
  have hsuf := suffix_of_bcast hbc
  have hred : (bcastReduce gradA.shape g0).shape = (getN s selfId).data.shape := by
    rw [hga]
    apply bcastReduce_shape
    · rw [hg0s]; exact hsuf.1
    · intro j hj hne
      rw [hg0s]
      exact hsuf.2 j hj hne
  have haddbc : broadcastShape gradA.shape (bcastReduce gradA.shape g0).shape =
      some gradA.shape := by
    rw [hred, hga]
    exact broadcastShape_self _
  obtain ⟨r, hr, hrs⟩ := binOp_shape (· + ·) gradA _ _ haddbc
  refine ⟨g0, r, hg0, hred, hr, by rw [hrs, hga], ?_⟩
  unfold mulBackwardHalf
  rw [hrg]
  simp [hog, hsg, getGradE, arrE, mulArr, hg0, addArr, hr, Bind.bind, Except.bind,
    Functor.map, Except.map]
  rfl

theorem claim_C4_witness :
    broadcastShape aArr31.shape bArr34.shape = some [3, 4] ∧
      ∃ g0 r, mulArr (getN mulW 1).data (onesLike bArr34) = some g0 ∧
        (bcastReduce (zerosLike aArr31).shape g0).shape = (getN mulW 0).data.shape ∧
        addArr (zerosLike aArr31) (bcastReduce (zerosLike aArr31).shape g0) = some r ∧
        r.shape = (getN mulW 0).data.shape ∧
        mulBackwardHalf mulW 0 1 2 = Except.ok (setGrad mulW 0 (some r)) :=
  ⟨rfl, claim_C4_mul_broadcast_backward mulW 0 1 2 (onesLike bArr34)
    (zerosLike aArr31) [3, 4] rfl rfl rfl rfl rfl rfl⟩

/-! ## Pointwise broadcasting lemmas (for the reduction backward rules) -/

lemma bcastRev_nil_right : ∀ xs : List Nat, bcastRev xs [] = some xs := by
  intro xs
  cases xs <;> simp [bcastRev]

lemma bcastRev_pointwise_right :
    ∀ (xs ys : List Nat), ys.length = xs.length →
      (∀ j, j < xs.length → ys.getD j 0 = xs.getD j 0 ∨ ys.getD j 0 = 1) →
      bcastRev xs ys = some xs := by
  intro xs
  induction xs with
  | nil =>
    intro ys hl _
    cases ys with
    | nil => rfl
    | cons y ys => simp at hl
  | cons x xs ih =>
    intro ys hl h
    cases ys with
    | nil => simp at hl
    | cons y ys =>
      have h0 := h 0 (by simp)
      simp [List.getD_cons_zero] at h0
      have hrec : bcastRev xs ys = some xs := by
        refine ih ys (by simpa using hl) ?_
        intro j hj
        simpa [List.getD_cons_succ] using h (j + 1) (by simpa using hj)
      rcases h0 with h0 | h0
      · subst h0
        simp [bcastRev, broadcastDim, hrec]
      · subst h0
        by_cases hx1 : x = 1
        · subst hx1; simp [bcastRev, broadcastDim, hrec]
        · simp [bcastRev, broadcastDim, hx1, hrec]

lemma bcastRev_pointwise_left :
    ∀ (xs ys : List Nat), ys.length = xs.length →
      (∀ j, j < xs.length → ys.getD j 0 = xs.getD j 0 ∨ ys.getD j 0 = 1) →
      bcastRev ys xs = some xs := by
  intro xs
  induction xs with
  | nil =>
    intro ys hl _
    cases ys with
    | nil => rfl
    | cons y ys => simp at hl
  | cons x xs ih =>
    intro ys hl h
    cases ys with
    | nil => simp at hl
    | cons y ys =>
      have h0 := h 0 (by simp)
      simp [List.getD_cons_zero] at h0
      have hrec : bcastRev ys xs = some xs := by
        refine ih ys (by simpa using hl) ?_
        intro j hj
        simpa [List.getD_cons_succ] using h (j + 1) (by simpa using hj)
      rcases h0 with h0 | h0
      · subst h0
        simp [bcastRev, broadcastDim, hrec]
      · subst h0
        by_cases hx1 : (1 : Nat) = x
        · subst hx1; simp [bcastRev, broadcastDim, hrec]
        · simp [bcastRev, broadcastDim, hx1, hrec]

/-- Transfer a left-aligned pointwise bound through `List.reverse`. -/
lemma pointwise_reverse {xs ys : List Nat} (hl : ys.length = xs.length)
    (h : ∀ j, j < xs.length → ys.getD j 0 = xs.getD j 0 ∨ ys.getD j 0 = 1) :
    ∀ j, j < xs.reverse.length →
      ys.reverse.getD j 0 = xs.reverse.getD j 0 ∨ ys.reverse.getD j 0 = 1 := by
  intro j hj
  simp at hj
  rw [getD_reverse ys j (by omega), getD_reverse xs j (by omega), hl]
  exact h (xs.length - 1 - j) (by omega)

lemma broadcastShape_pointwise_right {xs ys : List Nat} (hl : ys.length = xs.length)
    (h : ∀ j, j < xs.length → ys.getD j 0 = xs.getD j 0 ∨ ys.getD j 0 = 1) :
    broadcastShape xs ys = some xs := by
  rw [broadcastShape,
    bcastRev_pointwise_right xs.reverse ys.reverse (by simpa using hl)
      (pointwise_reverse hl h)]
  simp

lemma broadcastShape_pointwise_left {xs ys : List Nat} (hl : ys.length = xs.length)
    (h : ∀ j, j < xs.length → ys.getD j 0 = xs.getD j 0 ∨ ys.getD j 0 = 1) :
    broadcastShape ys xs = some xs := by
  rw [broadcastShape,
    bcastRev_pointwise_left xs.reverse ys.reverse (by simpa using hl)
      (pointwise_reverse hl h)]
  simp

lemma broadcastShape_nil_right (xs : List Nat) : broadcastShape xs [] = some xs := by
  simp [broadcastShape, bcastRev_nil_right]

lemma broadcastShape_nil_left (xs : List Nat) : broadcastShape [] xs = some xs := by
  simp [broadcastShape, bcastRev]

/-- Pointwise comparison of `s.set d 1` against `s`. -/
lemma set_one_pointwise (s : List Nat) (d : Nat) :
    ∀ j, j < s.length → (s.set d 1).getD j 0 = s.getD j 0 ∨ (s.set d 1).getD j 0 = 1 := by
  intro j hj
  by_cases hdj : d = j
  · subst hdj
    right
    simp [List.getD_eq_getElem?_getD, List.getElem?_set_self hj]
  · left
    simp [List.getD_eq_getElem?_getD, List.getElem?_set_ne hdj]

lemma replicate_one_pointwise (n : Nat) (s : List Nat) (hl : s.length = n) :
    ∀ j, j < s.length →
      (List.replicate n 1).getD j 0 = s.getD j 0 ∨ (List.replicate n 1).getD j 0 = 1 := by
  intro j hj
  right
  rw [List.getD_eq_getElem?_getD, List.getElem?_replicate, if_pos (by omega)]
  rfl

/-! ## Amended max-backward claim and its counterexample -/

/-- C5 (amended): the backward rule of `max` is `dA += dOut * (A == Out)`,
splitting the gradient onto all tied maximal entries; the accumulation is
guaranteed to succeed and to produce a gradient of `A`'s shape whenever
`keepdims` is true or `dim` is `None`.  (With `keepdims=False` and an inner
axis the NumPy broadcast in `self.data == out.data` fails — see the
counterexample.) -/
theorem claim_C5_amended (s : Store) (a outId : Nat) (dim : Option Nat)
    (keepdims : Bool) (dOut gradA : NDArray)
    (hrg : (getN s a).requires_grad = true)
    (hog : (getN s outId).grad = some dOut)
    (hsg : (getN s a).grad = some gradA)
    (hga : gradA.shape = (getN s a).data.shape)
    (hod : (getN s outId).data = npMax (getN s a).data dim keepdims)
    (hout : dOut.shape = (npMax (getN s a).data dim keepdims).shape)
    (hdim : ∀ d, dim = some d → d < (getN s a).data.ndim)
    (hamend : keepdims = true ∨ dim = none) :
    ∃ mask t r, eqMask (getN s a).data (getN s outId).data = some mask ∧
      mulArr dOut mask = some t ∧
      addArr gradA t = some r ∧
      r.shape = (getN s a).data.shape ∧
      maxBackward s a outId = Except.ok (setGrad s a (some r)) := by
  set A := (getN s a).data with hA
  have hbc1 : broadcastShape A.shape (npMax A dim keepdims).shape = some A.shape := by
    rcases hamend with hk | hn
    · subst hk
      cases dim with
      | none =>
        exact broadcastShape_pointwise_right (by simp [npMax, NDArray.ndim])
          (replicate_one_pointwise _ _ rfl)
      | some d =>
        exact broadcastShape_pointwise_right (by simp [npMax, maxAxis])
          (by simpa [npMax, maxAxis] using set_one_pointwise A.shape d)
    · subst hn
      cases keepdims with
      | false => exact broadcastShape_nil_right A.shape
      | true =>
        exact broadcastShape_pointwise_right (by simp [npMax, NDArray.ndim])
          (replicate_one_pointwise _ _ rfl)
  have hbc2 : broadcastShape (npMax A dim keepdims).shape A.shape = some A.shape := by
    rcases hamend with hk | hn
    · subst hk
      cases dim with
      | none =>
        exact broadcastShape_pointwise_left (by simp [npMax, NDArray.ndim])
          (replicate_one_pointwise _ _ rfl)
      | some d =>
        exact broadcastShape_pointwise_left (by simp [npMax, maxAxis])
          (by simpa [npMax, maxAxis] using set_one_pointwise A.shape d)
    · subst hn
      cases keepdims with
      | false => exact broadcastShape_nil_left A.shape
      | true =>
        exact broadcastShape_pointwise_left (by simp [npMax, NDArray.ndim])
          (replicate_one_pointwise _ _ rfl)
  obtain ⟨mask, hmask, hmasks⟩ :=
    binOp_shape (fun x y => if x = y then 1 else 0) A (npMax A dim keepdims)
      A.shape hbc1
  have hbc2' : broadcastShape dOut.shape mask.shape = some A.shape := by
    rw [hout, hmasks]; exact hbc2
  obtain ⟨t, ht, hts⟩ := binOp_shape (· * ·) dOut mask A.shape hbc2'
  have hbc3 : broadcastShape gradA.shape t.shape = some gradA.shape := by
    rw [hts, hga]; exact broadcastShape_self _
  obtain ⟨r, hr, hrs⟩ := binOp_shape (· + ·) gradA t gradA.shape hbc3
  refine ⟨mask, t, r, by rw [hod]; exact hmask, ht, hr, by rw [hrs, hga], ?_⟩
  unfold maxBackward
  rw [hrg]
  simp [hog, hsg, getGradE, arrE, eqMask, hod, hmask, mulArr, ht, addArr, hr,
    Bind.bind, Except.bind]
  rfl

theorem claim_C5_amended_witness :
    ((getN c5maxKStore 0).requires_grad = true ∧
      (getN c5maxKStore 1).data = npMax (getN c5maxKStore 0).data (some 1) true) ∧
      ∃ mask t r,
        eqMask (getN c5maxKStore 0).data (getN c5maxKStore 1).data = some mask ∧
        mulArr (zerosLike (npMax aArr23 (some 1) true)) mask = some t ∧
        addArr (zerosLike aArr23) t = some r ∧
        r.shape = (getN c5maxKStore 0).data.shape ∧
        maxBackward c5maxKStore 0 1 = Except.ok (setGrad c5maxKStore 0 (some r)) :=
  ⟨⟨rfl, rfl⟩,
    claim_C5_amended c5maxKStore 0 1 (some 1) true
      (zerosLike (npMax aArr23 (some 1) true)) (zerosLike aArr23)
      rfl rfl rfl rfl rfl rfl
      (fun d hd => by cases hd; decide) (Or.inl rfl)⟩

/-- C5 (counterexample to the claim as stated): `dim = 1` is a valid
reduction axis of a `(2,3)` tensor, `keepdims` defaults to `False`, yet
`backward` through `max(dim=1)` fails with a NumPy broadcast error instead
of accumulating a gradient of the operand's shape: `self.data == out.data`
compares a `(2,3)` buffer against a `(2,)` buffer. -/
theorem claim_C5_counterexample :
    maxOp [leafT] 0 (some 1) false false = Except.ok (c5maxStore, 1) ∧
      (getN c5maxStore 1).requires_grad = true ∧
      backward c5maxStore 1 =
        Except.error "operands could not be broadcast together" :=
  ⟨rfl, rfl, rfl⟩

/-! ## Sum-backward lemmas -/

lemma zip_flag_all :
    ∀ (xs ys : List Nat),
      (∀ j, j < xs.length → xs.getD j 0 = ys.getD j 0 ∨ xs.getD j 0 = 1) →
      (List.zipWith (fun d t => d == t || d == 1) xs ys).all id = true := by
  intro xs
  induction xs with
  | nil => intro ys _; simp
  | cons x xs ih =>
    intro ys h
    cases ys with
    | nil => simp
    | cons y ys =>
      have h0 := h 0 (by simp)
      simp [List.getD_cons_zero] at h0
      simp only [List.zipWith_cons_cons, List.all_cons, Bool.and_eq_true, id]
      constructor
      · rcases h0 with h0 | h0 <;> simp [h0]
      · exact ih ys (fun j hj => by
          simpa [List.getD_cons_succ] using h (j + 1) (by simpa using hj))

lemma btOk_of_pointwise (xs ys : List Nat) (hl : xs.length = ys.length)
    (h : ∀ j, j < xs.length → xs.getD j 0 = ys.getD j 0 ∨ xs.getD j 0 = 1) :
    btOk xs ys = true := by
  unfold btOk
  rw [Bool.and_eq_true]
  refine ⟨by simp [hl], ?_⟩
  rw [hl, Nat.sub_self, List.drop_zero]
  exact zip_flag_all xs ys h

lemma broadcastTo_of_btOk (x : NDArray) (s : List Nat) (h : btOk x.shape s = true) :
    ∃ r, broadcastTo x s = some r ∧ r.shape = s :=
  ⟨_, by rw [broadcastTo, if_pos h], rfl⟩

lemma take_drop_eraseIdx_set :
    ∀ (s : List Nat) (d : Nat), d < s.length →
      (s.eraseIdx d).take d ++ 1 :: (s.eraseIdx d).drop d = s.set d 1 := by
  intro s
  induction s with
  | nil => intro d hd; simp at hd
  | cons x s ih =>
    intro d hd
    cases d with
    | zero => simp [List.eraseIdx]
    | succ d =>
      simp only [List.eraseIdx, List.take_succ_cons, List.drop_succ_cons,
        List.set_cons_succ, List.cons_append]
      rw [ih d (by simpa using hd)]

/-- C6: the backward gradient of `sum(dim, keepdims)` always exists and has
exactly the operand's shape — it is the incoming gradient broadcast back
over the reduced axis; concretely, `sum(dim=0)` on a `(2,3)` tensor with
`requires_grad=True` followed by `backward()` on the `(3,)` result leaves a
`(2,3)` gradient with every entry 1 on the operand. -/
theorem claim_C6_sum_backward (aD og : NDArray) (d : Nat) (keepdims : Bool)
    (hd : d < aD.ndim)
    (hog : og.shape = (npSum aD (some d) keepdims).shape) :
    (∃ g, sumGradContrib aD (some d) keepdims og = some g ∧ g.shape = aD.shape) ∧
      sumOp [leafT] 0 (some 0) false false = Except.ok (c6store, 1) ∧
      (getN c6store 1).data.shape = [3] ∧
      (gradAt (backward c6store 1) 0).map
          (fun g => (g.shape, (indicesList [2, 3]).map g.val)) =
        some ([2, 3], List.replicate 6 (1 : Int)) := by
  refine ⟨?_, rfl, rfl, by decide⟩
  have hin : (if keepdims then og else expandDims og d).shape = aD.shape.set d 1 := by
    cases keepdims with
    | true =>
      simpa using hog
    | false =>
      show og.shape.take d ++ 1 :: og.shape.drop d = aD.shape.set d 1
      rw [hog]
      exact take_drop_eraseIdx_set aD.shape d hd
  have hbt : btOk (if keepdims then og else expandDims og d).shape aD.shape = true := by
    rw [hin]
    exact btOk_of_pointwise _ _ (by simp)
      (by simpa using set_one_pointwise aD.shape d)
  obtain ⟨r, hr, hrs⟩ := broadcastTo_of_btOk _ aD.shape hbt
  exact ⟨r, hr, hrs⟩

theorem claim_C6_witness :
    (0 < aArr23.ndim ∧
      (onesLike (npSum aArr23 (some 0) false)).shape =
        (npSum aArr23 (some 0) false).shape) ∧
      (∃ g, sumGradContrib aArr23 (some 0) false
          (onesLike (npSum aArr23 (some 0) false)) = some g ∧
        g.shape = aArr23.shape) ∧
      (gradAt (backward c6store 1) 0).map
          (fun g => (g.shape, (indicesList [2, 3]).map g.val)) =
        some ([2, 3], List.replicate 6 (1 : Int)) :=
  ⟨⟨by decide, rfl⟩,
    (claim_C6_sum_backward aArr23 (onesLike (npSum aArr23 (some 0) false)) 0 false
      (by decide) rfl).1,
    (claim_C6_sum_backward aArr23 (onesLike (npSum aArr23 (some 0) false)) 0 false
      (by decide) rfl).2.2.2⟩

/-! ## Correctness of the `build_topo` depth-first post-order -/

lemma wfB_lt {g : List (List Nat)} (h : wfB g = true) :
    ∀ v c, c ∈ childrenOf g v → c < v := by
  intro v c hc
  by_cases hv : v < g.length
  · rw [wfB, List.all_eq_true] at h
    have := h v (List.mem_range.mpr hv)
    rw [List.all_eq_true] at this
    simpa using this c hc
  · rw [childrenOf, List.getD_eq_getElem?_getD,
      List.getElem?_eq_none (by omega : g.length ≤ v)] at hc
    simp at hc

lemma Reach.trans' {g : List (List Nat)} {u v w : Nat}
    (h1 : Reach g u v) (h2 : Reach g v w) : Reach g u w := by
  induction h2 with
  | refl => exact h1
  | step _ hc ih => exact Reach.step ih hc

lemma buildTopoChildren_spec (g : List (List Nat))
    (hwf : ∀ v c, c ∈ childrenOf g v → c < v) (fuel : Nat)
    (IH : ∀ v vis topo, v < fuel → topoInv g vis topo → pendingGT v vis topo →
      topoPost g v vis topo (buildTopoF g fuel v (vis, topo))) :
    ∀ cs vis topo, (∀ c ∈ cs, c < fuel) → topoInv g vis topo →
      (∀ p ∈ vis, p ∉ topo → ∀ c ∈ cs, c < p) →
      topoPostList g cs vis topo
        (cs.foldl (fun st c => buildTopoF g fuel c st) (vis, topo)) := by
  intro cs
  induction cs with
  | nil =>
    intro vis topo _ hinv _
    exact ⟨[], by simp, by simp, by simp, by simp, by simp, by simpa using hinv⟩
  | cons c cs ihc =>
    intro vis topo hcs hinv hpre
    have hP := IH c vis topo (hcs c (by simp)) hinv
      (fun p hp hpt => hpre p hp hpt c (by simp))
    obtain ⟨Δ1, h1topo, h1vis, h1new, h1reach, h1mem, h1inv⟩ := hP
    set st1 := buildTopoF g fuel c (vis, topo) with hst1
    have hQ := ihc st1.1 st1.2 (fun c' hc' => hcs c' (by simp [hc']))
      h1inv ?_
    · obtain ⟨Δ2, h2topo, h2vis, h2new, h2reach, h2mem, h2inv⟩ := hQ
      refine ⟨Δ1 ++ Δ2, ?_, ?_, ?_, ?_, ?_, ?_⟩
      · rw [List.foldl_cons, ← hst1, h2topo, h1topo, List.append_assoc]
      · intro x
        rw [List.foldl_cons, ← hst1, h2vis x, h1vis x, List.mem_append]
        tauto
      · intro x hx
        rw [List.mem_append] at hx
        rcases hx with hx | hx
        · exact h1new x hx
        · intro hxv
          exact h2new x hx ((h1vis x).mpr (Or.inl hxv))
      · intro x hx
        rw [List.mem_append] at hx
        rcases hx with hx | hx
        · exact ⟨c, by simp, h1reach x hx⟩
        · obtain ⟨c', hc', hr⟩ := h2reach x hx
          exact ⟨c', by simp [hc'], hr⟩
      · intro c' hc'
        rw [List.foldl_cons, ← hst1]
        rcases List.mem_cons.mp hc' with hc' | hc'
        · subst hc'
          exact (h2vis c').mpr (Or.inl h1mem)
        · exact h2mem c' hc'
      · rw [List.foldl_cons, ← hst1]
        exact h2inv
    · intro p hp hpt c' hc'
      have hpv : p ∈ vis := by
        rcases (h1vis p).mp hp with h | h
        · exact h
        · exact absurd (by rw [h1topo]; exact List.mem_append.mpr (Or.inr h)) hpt
      have hptopo : p ∉ topo := by
        intro hpt2
        exact hpt (by rw [h1topo]; exact List.mem_append.mpr (Or.inl hpt2))
      exact hpre p hpv hptopo c' (by simp [hc'])

lemma buildTopoF_spec (g : List (List Nat))
    (hwf : ∀ v c, c ∈ childrenOf g v → c < v) :
    ∀ fuel v vis topo, v < fuel → topoInv g vis topo → pendingGT v vis topo →
      topoPost g v vis topo (buildTopoF g fuel v (vis, topo)) := by
  intro fuel
  induction fuel with
  | zero => intro v vis topo hv; omega
  | succ fuel ih =>
    intro v vis topo hv hinv hpend
    by_cases hvvis : v ∈ vis
    · refine ⟨[], ?_, ?_, by simp, by simp, ?_, ?_⟩ <;>
        simp [buildTopoF, hvvis] <;> exact hinv
    · have hQ := buildTopoChildren_spec g hwf fuel ih (childrenOf g v)
        (v :: vis) topo
        (fun c hc => by have := hwf v c hc; omega)
        ?_ ?_
      · obtain ⟨Δc, hqtopo, hqvis, hqnew, hqreach, hqmem, hqinv⟩ := hQ
        set st2 := (childrenOf g v).foldl
          (fun st c => buildTopoF g fuel c st) (v :: vis, topo) with hst2
        have hres : buildTopoF g (fuel + 1) v (vis, topo) = (st2.1, st2.2 ++ [v]) := by
          rw [hst2, buildTopoF, if_neg (show v ∉ (vis, topo).1 from hvvis)]
        have hvtopo2 : v ∉ st2.2 := by
          rw [hqtopo]
          intro hmem
          rcases List.mem_append.mp hmem with h | h
          · exact hvvis (hinv.2.1 v h)
          · exact hqnew v h (by simp)
        obtain ⟨hnd2, hmem2, hclosed2, hord2⟩ := hqinv
        refine ⟨Δc ++ [v], ?_, ?_, ?_, ?_, ?_, ?_⟩
        · rw [hres]
          simp only [hqtopo, List.append_assoc]
        · intro x
          rw [hres]
          simp only [hqvis x, List.mem_cons, List.mem_append,
            List.mem_singleton]
          tauto
        · intro x hx
          rcases List.mem_append.mp hx with hx | hx
          · intro hxv
            exact hqnew x hx (by simp [hxv])
          · rw [List.mem_singleton] at hx
            subst hx
            exact hvvis
        · intro x hx
          rcases List.mem_append.mp hx with hx | hx
          · obtain ⟨c, hc, hr⟩ := hqreach x hx
            exact Reach.trans' (Reach.step (Reach.refl v) hc) hr
          · rw [List.mem_singleton] at hx
            subst hx
            exact Reach.refl _
        · rw [hres]
          exact (hqvis v).mpr (Or.inl (by simp))
        · rw [hres]
          refine ⟨?_, ?_, ?_, ?_⟩
          · rw [List.nodup_append]
            exact ⟨hnd2, List.nodup_singleton v,
              fun x hx hx2 => by
                rw [List.mem_singleton] at hx2
                exact hvtopo2 (hx2 ▸ hx)⟩
          · intro x hx
            rcases List.mem_append.mp hx with hx | hx
            · exact hmem2 x hx
            · rw [List.mem_singleton] at hx
              subst hx
              exact (hqvis x).mpr (Or.inl (by simp))
          · intro x hx c hc
            rcases List.mem_append.mp hx with hx | hx
            · exact hclosed2 x hx c hc
            · rw [List.mem_singleton] at hx
              subst hx
              exact hqmem c hc
          · intro i hi c hc
            by_cases hil : i < st2.2.length
            · have hget : (st2.2 ++ [v]).get ⟨i, hi⟩ = st2.2.get ⟨i, hil⟩ := by
                simp [List.get_eq_getElem, List.getElem_append_left hil]
              rw [hget] at hc
              rw [List.take_append_of_le_length (by omega)]
              exact hord2 i hil c hc
            · have hieq : i = st2.2.length := by
                simp at hi
                omega
              have hget : (st2.2 ++ [v]).get ⟨i, hi⟩ = v := by
                subst hieq
                simp [List.get_eq_getElem]
              rw [hget] at hc
              rw [List.take_append_of_le_length (by omega), hieq,
                List.take_length]
              have hcvis : c ∈ st2.1 := hqmem c hc
              rcases (hqvis c).mp hcvis with hcv | hcΔ
              · rcases List.mem_cons.mp hcv with hcv | hcv
                · exact absurd (hcv ▸ hwf v c hc) (lt_irrefl v)
                · by_cases hct : c ∈ topo
                  · rw [hqtopo]
                    exact List.mem_append.mpr (Or.inl hct)
                  · exact absurd (hwf v c hc) (by
                      have := hpend c hcv hct
                      omega)
              · rw [hqtopo]
                exact List.mem_append.mpr (Or.inr hcΔ)
      · exact ⟨hinv.1, fun x hx => by simp [hinv.2.1 x hx],
          fun x hx c hc => by simp [hinv.2.2.1 x hx c hc], hinv.2.2.2⟩
      · intro p hp hpt c hc
        rcases List.mem_cons.mp hp with hp | hp
        · exact hp ▸ hwf v c hc
        · have := hpend p hp hpt
          have := hwf v c hc
          omega

/-- C1: on a well-formed graph (children created before parents, as every
operator call guarantees), the execution order `reversed(topo)` used by
`backward` — `backwardOrder`, along which `runNodes` fires one
`localBackward` per listed node — contains every node reachable from the
root via `_children` exactly once (diamonds included) and no other node,
and lists every node strictly before all of its children: each node's
`grad` is fully accumulated by its consumers before its own `localBackward`
propagates it to its parents. -/
theorem claim_C1_topo_order (g : List (List Nat)) (root : Nat)
    (hwf : wfB g = true) :
    (∀ v, v ∈ backwardOrder g root ↔ Reach g root v) ∧
      (∀ v, Reach g root v → (backwardOrder g root).count v = 1) ∧
      (∀ v, ¬ Reach g root v → (backwardOrder g root).count v = 0) ∧
      (∀ j (hj : j < (backwardOrder g root).length),
        ∀ c ∈ childrenOf g ((backwardOrder g root).get ⟨j, hj⟩),
          c ∈ (backwardOrder g root).drop (j + 1)) := by
  have hspec := buildTopoF_spec g (wfB_lt hwf) (root + 1) root [] [] (by omega)
    ⟨List.nodup_nil, fun x hx => absurd hx (by simp),
      fun x hx => absurd hx (by simp), fun i h => absurd h (by simp)⟩
    (fun p hp _ => absurd hp (by simp))
  obtain ⟨Δ, hto, hvi, hnew, hrea, hvm, hinv⟩ := hspec
  have hT : buildTopo g root = (buildTopoF g (root + 1) root ([], [])).2 := rfl
  have hTΔ : buildTopo g root = Δ := by rw [hT, hto]; simp
  have hmem_iff : ∀ v, v ∈ buildTopo g root ↔ Reach g root v := by
    intro v
    constructor
    · intro hv
      exact hrea v (hTΔ ▸ hv)
    · intro hv
      induction hv with
      | refl =>
        rw [hTΔ]
        rcases (hvi root).mp hvm with h | h
        · exact absurd h (by simp)
        · exact h
      | @step w cc hr hc ihv =>
        have hmem : w ∈ (buildTopoF g (root + 1) root ([], [])).2 := by
          rw [← hT]; exact ihv
        have hclosed := hinv.2.2.1 w hmem cc hc
        rw [hTΔ]
        rcases (hvi cc).mp hclosed with h | h
        · exact absurd h (by simp)
        · exact h
  have hnodup : (buildTopo g root).Nodup := by
    rw [hT]; exact hinv.1
  refine ⟨?_, ?_, ?_, ?_⟩
  · intro v
    rw [backwardOrder, List.mem_reverse]
    exact hmem_iff v
  · intro v hv
    exact List.count_eq_one_of_mem (List.nodup_reverse.mpr hnodup)
      (List.mem_reverse.mpr ((hmem_iff v).mpr hv))
  · intro v hv
    rw [List.count_eq_zero]
    intro hm
    exact hv ((hmem_iff v).mp (List.mem_reverse.mp hm))
  · intro j hj c hc
    have hj' : j < (buildTopo g root).length := by
      simpa [backwardOrder] using hj
    have hi : (buildTopo g root).length - 1 - j < (buildTopo g root).length := by
      omega
    have hget : (backwardOrder g root).get ⟨j, hj⟩ =
        (buildTopo g root).get ⟨(buildTopo g root).length - 1 - j, hi⟩ := by
      show (buildTopo g root).reverse.get _ = _
      simp [List.get_eq_getElem, List.getElem_reverse]
    rw [hget] at hc
    have htake : c ∈ (buildTopo g root).take
        ((buildTopo g root).length - 1 - j) :=
      hinv.2.2.2 ((buildTopo g root).length - 1 - j) hi c hc
    have h1 : c ∈ ((buildTopo g root).take
        ((buildTopo g root).length - 1 - j)).reverse :=
      List.mem_reverse.mpr htake
    rw [List.reverse_take] at h1
    have harith : (buildTopo g root).length -
        ((buildTopo g root).length - 1 - j) = j + 1 := by omega
    rw [harith] at h1
    exact h1

theorem claim_C1_witness :
    wfB diamondG = true ∧
      backwardOrder diamondG 3 = [3, 2, 1, 0] ∧
      ((∀ v, v ∈ backwardOrder diamondG 3 ↔ Reach diamondG 3 v) ∧
        (∀ v, Reach diamondG 3 v → (backwardOrder diamondG 3).count v = 1) ∧
        (∀ v, ¬ Reach diamondG 3 v → (backwardOrder diamondG 3).count v = 0) ∧
        (∀ j (hj : j < (backwardOrder diamondG 3).length),
          ∀ c ∈ childrenOf diamondG ((backwardOrder diamondG 3).get ⟨j, hj⟩),
            c ∈ (backwardOrder diamondG 3).drop (j + 1))) :=
  ⟨by decide, by decide, claim_C1_topo_order diamondG 3 (by decide)⟩

end DeepLib
